import Mathlib

/-!
Shallow embedding of the usage cache and refresh coordinator of the
`codex-switcher` repository (the `createUsageManager` module).
JSON / JavaScript values flowing through the code are modelled by `JSVal`,
JavaScript object / `Map` key ordering by association lists, and the
cooperative async scheduling of the coordinator by an explicit state
machine (`Machine`) driven by `Input` events.
-/

namespace CodexUsage

/-- A JSON / JavaScript value as it appears after `JSON.parse`.
Numbers are modelled as `Int`; no verified property depends on
fractional numeric values. -/
inductive JSVal where
  | null
  | bool (b : Bool)
  | num (n : Int)
  | str (s : String)
  | arr (elems : List JSVal)
  | obj (fields : List (String × JSVal))
deriving Repr

/-- JavaScript truthiness of a JSON value (`undefined` is modelled
separately as `Option.none` where it can occur). -/
def JSVal.truthy : JSVal → Bool
  | .null => false
  | .bool b => b
  | .num n => n != 0
  | .str s => s != ""
  | .arr _ => true
  | .obj _ => true

/-- JS `typeof v === "object"` for a JSON value (true for objects,
arrays and `null`). -/
def JSVal.typeofObject : JSVal → Bool
  | .null => true
  | .obj _ => true
  | .arr _ => true
  | _ => false

/-- JS property access `v.key`: `none` models `undefined` (absent key,
or access on a non-object). -/
def JSVal.getField : JSVal → String → Option JSVal
  | .obj fields, key => (fields.find? (fun p => p.1 == key)).map Prod.snd
  | _, _ => none

/-- JS `x || defaultVal` where `x` may be `undefined` (`none`). -/
def jsOr (v : Option JSVal) (d : JSVal) : JSVal :=
  match v with
  | some x => if x.truthy then x else d
  | none => d

/-- JS `x || null` where `x` may be `undefined`; `none` models the
resulting `null`. -/
def jsOrNull (v : Option JSVal) : Option JSVal :=
  match v with
  | some x => if x.truthy then some x else none
  | none => none

/-- Truthiness of a possibly-`undefined` value (`!x` negated). -/
def jsTruthyOpt (v : Option JSVal) : Bool :=
  match v with
  | some x => x.truthy
  | none => false

/-- JS `typeof x === "boolean" ? x : null`. -/
def asBoolOrNull (v : Option JSVal) : Option Bool :=
  match v with
  | some (.bool b) => some b
  | _ => none

/-- JS `typeof x === "number" ? x : null`. -/
def asNumOrNull (v : Option JSVal) : Option Int :=
  match v with
  | some (.num n) => some n
  | _ => none

/-- JS `s.slice(0, n)` for a nonnegative `n`: the first `n` characters. -/
def strTake (s : String) (n : Nat) : String := String.mk (s.data.take n)

/-- Source constant `CACHE_VERSION`. -/
def CACHE_VERSION : Nat := 1

/-- Source constant `DEFAULT_CACHE_TTL_MS` (15 minutes). -/
def DEFAULT_CACHE_TTL_MS : Int := 15 * 60 * 1000

/-- Source constant `DEFAULT_FETCH_DELAY_MS` (2 seconds between calls). -/
def DEFAULT_FETCH_DELAY_MS : Int := 2000

/-- Source constant `REQUEST_TIMEOUT_MS`. -/
def REQUEST_TIMEOUT_MS : Int := 5000

/-- The observable content of a credential file, as seen by
`readAuthTokens`: no path supplied, file absent, read / `JSON.parse`
threw (with the exception message), or parsed to a JSON value. -/
inductive AuthFileInput where
  | noPath
  | fileMissing
  | unreadable (errMessage : String)
  | parsed (v : JSVal)
deriving Repr

/-- Result states of `readAuthTokens`. -/
inductive TokenRead where
  | missing (message : String)
  | parse_error (message : String)
  | incomplete (message : String)
  | ok (accessToken accountId : JSVal)
deriving Repr

/-- `readAuthTokens(authFilePath)` from the source. -/
def readAuthTokens : AuthFileInput → TokenRead
  | .noPath => .missing "auth.json not found for this profile."
  | .fileMissing => .missing "auth.json not found for this profile."
  | .unreadable e =>
    .parse_error (if e = "" then "Failed to parse auth.json." else e)
  | .parsed v =>
    let tokens := jsOr (v.getField "tokens") (.obj [])
    let accessToken := tokens.getField "access_token"
    let accountId := tokens.getField "account_id"
    if !(jsTruthyOpt accessToken) || !(jsTruthyOpt accountId) then
      .incomplete "auth.json is missing access_token or account_id."
    else
      .ok (accessToken.getD .null) (accountId.getD .null)

/-- The observable outcome of the single `fetch` call in
`performUsageRequest`: a response with a status code, the result of
reading its body as text, and the result of parsing it as JSON; or an
abort (the 5s timeout fired); or a network-level rejection. -/
inductive HttpEvent where
  | response (status : Nat) (bodyText : Except String String)
      (bodyJson : Except String JSVal)
  | abortTimeout
  | networkFailure (message : String)
deriving Repr

/-- `res.ok`: status in the 2xx range. -/
def resOk (status : Nat) : Bool := 200 ≤ status && status ≤ 299

/-- The `state`-tagged snapshot values produced by `fetchUsageSnapshot`
(either a `readAuthTokens` failure or a `performUsageRequest` result). -/
inductive Snapshot where
  | missing (message : String)
  | parse_error (message : String)
  | incomplete (message : String)
  | ok (data : JSVal)
  | error (message : String)
deriving Repr

/-- `performUsageRequest` from the source, as a function of the
observable outcome of its single HTTP call. -/
def performUsageRequest : HttpEvent → Snapshot
  | .response status bodyText bodyJson =>
    if resOk status then
      match bodyJson with
      | .ok data => .ok data
      | .error e => .error (if e = "" then "Usage request failed." else e)
    else
      let detail :=
        match bodyText with
        | .ok body =>
          if body = "" then ""
          else
            ": " ++ (if body.length > 140 then strTake body 140 ++ "…" else body)
        | .error _ => ""
      .error ("Usage request failed (HTTP " ++ toString status ++ ")" ++ detail)
  | .abortTimeout => .error "Usage request timed out."
  | .networkFailure e => .error (if e = "" then "Usage request failed." else e)

/-- `fetchUsageSnapshot(authFilePath)`: short-circuits on any token-read
failure; only in the `ok` token state does the network call (`net`,
given the access token and account id) happen. -/
def fetchUsageSnapshot (auth : AuthFileInput)
    (net : JSVal → JSVal → HttpEvent) : Snapshot :=
  match readAuthTokens auth with
  | .missing m => .missing m
  | .parse_error m => .parse_error m
  | .incomplete m => .incomplete m
  | .ok tok acc => performUsageRequest (net tok acc)

/-- One rate window of a normalized `ok` summary, every field
independently nullable. -/
structure RateWindowS where
  usedPercent : Option Int
  resetAfterSeconds : Option Int
  limitWindowSeconds : Option Int
deriving Repr, DecidableEq

/-- The `rateLimit` object of a normalized `ok` summary. -/
structure RateLimitS where
  allowed : Option Bool
  limitReached : Option Bool
  primary : Option RateWindowS
  secondary : Option RateWindowS
deriving Repr

/-- The `credits` object of a normalized `ok` summary; `balance` is
passed through as-is (`?? null`), so it may be any JSON value. -/
structure CreditsS where
  unlimited : Option Bool
  balance : Option JSVal
deriving Repr

/-- The `status`-tagged summary shape produced by
`summarizeUsageSnapshot`. -/
inductive Summary where
  | ok (planType : Option JSVal) (rateLimit : RateLimitS) (credits : Option CreditsS)
  | warning (message : String)
  | error (message : String)
deriving Repr

/-- The local `truncate` helper of `summarizeUsageSnapshot`:
`msg && msg.length > 160 ? msg.slice(0, 157) + "..." : msg`. -/
def truncate (msg : String) : String :=
  if msg.length > 160 then strTake msg 157 ++ "..." else msg

/-- The window-normalization subexpression of the `ok` branch of
`summarizeUsageSnapshot` (each numeric field kept only when
`typeof === "number"`). -/
def summarizeWindow (w : JSVal) : RateWindowS :=
  { usedPercent := asNumOrNull (w.getField "used_percent"),
    resetAfterSeconds := asNumOrNull (w.getField "reset_after_seconds"),
    limitWindowSeconds := asNumOrNull (w.getField "limit_window_seconds") }

/-- `summarizeUsageSnapshot(snapshot)` from the source: `none` models
the `null` summary (absent snapshot). -/
def summarizeUsageSnapshot : Option Snapshot → Option Summary
  | none => none
  | some (.ok data) =>
    let rateLimit := jsOr (data.getField "rate_limit") (.obj [])
    let primaryWindow := jsOrNull (rateLimit.getField "primary_window")
    let secondaryWindow := jsOrNull (rateLimit.getField "secondary_window")
    let credits := jsOrNull (data.getField "credits")
    some (.ok
      (jsOrNull (data.getField "plan_type"))
      { allowed := asBoolOrNull (rateLimit.getField "allowed"),
        limitReached := asBoolOrNull (rateLimit.getField "limit_reached"),
        primary := primaryWindow.map summarizeWindow,
        secondary := secondaryWindow.map summarizeWindow }
      (credits.map (fun c =>
        { unlimited := asBoolOrNull (c.getField "unlimited"),
          balance :=
            match c.getField "balance" with
            | none => none
            | some .null => none
            | some v => some v })))
  | some (.missing _) =>
    some (.warning "No auth.json found for this profile.")
  | some (.parse_error m) =>
    some (.error ("Invalid auth.json: " ++ truncate m))
  | some (.incomplete m) => some (.warning (truncate m))
  | some (.error m) => some (.error (truncate m))

/-- One cache entry: `{ summary, fetchedAt }` as written by
`fetchAndStore`; `summary` is `Option` because
`summarizeUsageSnapshot` can produce `null`. -/
structure CachedEntry where
  summary : Option Summary
  fetchedAt : Int
deriving Repr

/-- The in-memory cache file shape `{ version, entries }`; for
`loadCache` the raw parsed `entries` value is kept untyped, as in the
source. -/
structure CacheFileModel where
  version : Nat
  entries : JSVal
deriving Repr

/-- `loadCache(cacheFile)` as a function of the observable file state:
`none` = file absent, `some (.error e)` = `readFileSync` / `JSON.parse`
threw, `some (.ok v)` = the parsed JSON value. -/
def loadCache : Option (Except String JSVal) → CacheFileModel
  | none => { version := CACHE_VERSION, entries := .obj [] }
  | some (.error _) => { version := CACHE_VERSION, entries := .obj [] }
  | some (.ok parsed) =>
    if !parsed.truthy || !parsed.typeofObject then
      { version := CACHE_VERSION, entries := .obj [] }
    else
      let entries :=
        match parsed.getField "entries" with
        | some e => if e.truthy && e.typeofObject then e else .obj []
        | none => .obj []
      { version := CACHE_VERSION, entries := entries }

/-- A raw element of the `accounts` argument of `refreshAccounts`, before
normalization: `name` is `none` when the property is absent (and the
JS-falsy empty string is handled by `normalizeAccountsList` itself). A
whole element may also be a non-object, modelled as `Option.none` at the
list level. -/
structure RawAccount where
  name : Option String
  authFile : Option String
deriving Repr, DecidableEq

/-- A normalized account `{ name, authFile }` with a nonempty name. -/
structure Account where
  name : String
  authFile : Option String
deriving Repr, DecidableEq

/-- JS `Map.prototype.set` keyed by `name` on an insertion-ordered map:
an existing key keeps its position but gets the new value; a new key is
appended. -/
def mapSetByName (m : List Account) (a : Account) : List Account :=
  if m.any (fun b => b.name = a.name) then
    m.map (fun b => if b.name = a.name then a else b)
  else m ++ [a]

/-- `normalizeAccountsList(accounts)` from the source: skip non-object
entries and entries with a falsy `name`, dedupe by name with later
entries overwriting, keep insertion order. -/
def normalizeAccountsList (accounts : List (Option RawAccount)) : List Account :=
  accounts.foldl (fun m e =>
    match e with
    | none => m
    | some r =>
      match r.name with
      | none => m
      | some n =>
        if n = "" then m else mapSetByName m { name := n, authFile := r.authFile }) []

/-- The `mergedMap` construction in `enqueueRefresh`: insert the pending
batch's accounts, then the incoming ones (which therefore overwrite). -/
def mergeByName (base incoming : List Account) : List Account :=
  incoming.foldl mapSetByName (base.foldl mapSetByName [])

/-- The last value with name `n` in `l` (specification helper for
`Map` last-write-wins lookups). -/
def findLastByName : List Account → String → Option Account
  | [], _ => none
  | a :: t, n =>
    match findLastByName t n with
    | some b => some b
    | none => if a.name = n then some a else none

/-- Lookup by name in an account list (the first hit; on lists built by
`mapSetByName` names are unique). -/
def accFind (l : List Account) (n : String) : Option Account :=
  l.find? (fun b => b.name = n)

/-- Lookup in the `cache.entries` object (keys are unique). -/
def lookupEntry (cache : List (String × CachedEntry)) (name : String) :
    Option CachedEntry :=
  (cache.find? (fun p => p.1 = name)).map Prod.snd

/-- JS `cache.entries[name] = e`: update in place if present (keeping
key order), else append. -/
def setEntry (cache : List (String × CachedEntry)) (name : String)
    (e : CachedEntry) : List (String × CachedEntry) :=
  if cache.any (fun p => p.1 = name) then
    cache.map (fun p => if p.1 = name then (name, e) else p)
  else cache ++ [(name, e)]

/-- Manager configuration: the `cacheTtlMs` / `fetchDelayMs` options of
`createUsageManager` (defaults `DEFAULT_CACHE_TTL_MS`,
`DEFAULT_FETCH_DELAY_MS`). -/
structure UsageConfig where
  cacheTtlMs : Int
  fetchDelayMs : Int
deriving Repr, DecidableEq

/-- The default configuration. -/
def defaultConfig : UsageConfig :=
  { cacheTtlMs := DEFAULT_CACHE_TTL_MS, fetchDelayMs := DEFAULT_FETCH_DELAY_MS }

/-- The mutable bookkeeping shared by the cache store and coordinator:
the `cache.entries` map, how many `Date.now()` calls have happened
(`tcount`, indexing the time oracle), and counters for `saveCache`
calls, `notifyUpdate` calls and `console.warn` logs. -/
structure CacheState where
  cache : List (String × CachedEntry)
  tcount : Nat
  saves : Nat
  notifies : Nat
  warns : Nat
deriving Repr

/-- The environment a refresh runs against: per-account result of
`summarizeUsageSnapshot(await fetchUsageSnapshot(authFile))`, where
`Except.error` models the promise rejecting, and the stream of values
returned by successive `Date.now()` calls. -/
structure RefreshEnv where
  fetchRes : Account → Except String (Option Summary)
  times : Nat → Int

/-- `pruneMissingAccounts(accountNames)` from the source: delete every
cache entry whose key is not in `names`; if anything was deleted, save
once and notify once. -/
def pruneMissingAccounts (names : List String) (st : CacheState) : CacheState :=
  let kept := st.cache.filter (fun p => names.contains p.1)
  if kept.length = st.cache.length then st
  else
    { st with cache := kept, saves := st.saves + 1, notifies := st.notifies + 1 }

/-- `renameAccount(oldName, newName)` from the source, restricted to its
effect on the entries map (`cache.entries[newName] = entry` then
`delete cache.entries[oldName]`). -/
def renameAccount (cache : List (String × CachedEntry)) (oldName newName : String) :
    List (String × CachedEntry) :=
  if oldName = newName then cache
  else
    match lookupEntry cache oldName with
    | none => cache
    | some entry => (setEntry cache newName entry).filter (fun p => p.1 ≠ oldName)

/-- The object returned by `getSummary`: the entry plus derived
`ageMs` and `stale`. -/
structure SummaryView where
  summary : Option Summary
  fetchedAt : Int
  ageMs : Int
  stale : Bool
deriving Repr

/-- `getSummary(name)` from the source (`now` is the value of its
`Date.now()` call): `none` for a falsy name or an uncached name. -/
def getSummary (cfg : UsageConfig) (cache : List (String × CachedEntry))
    (now : Int) (name : String) : Option SummaryView :=
  if name = "" then none
  else
    match lookupEntry cache name with
    | none => none
    | some entry =>
      some { summary := entry.summary, fetchedAt := entry.fetchedAt,
             ageMs := now - entry.fetchedAt,
             stale := decide (now - entry.fetchedAt ≥ cfg.cacheTtlMs) }

/-- `shouldFetch(name, force)` from the source; threads `tcount` because
the cached-entry branch calls `Date.now()`. -/
def shouldFetchStep (env : RefreshEnv) (cfg : UsageConfig) (name : String)
    (force : Bool) (st : CacheState) : Bool × CacheState :=
  if force then (true, st)
  else
    match lookupEntry st.cache name with
    | none => (true, st)
    | some entry =>
      let now := env.times st.tcount
      (decide (now - entry.fetchedAt ≥ cfg.cacheTtlMs),
       { st with tcount := st.tcount + 1 })

/-- Observable events of a coordinator run: `fetch n` is
`fetchAndStore` being invoked for profile `n` (the network attempt),
`delayWait ms` is the inter-call `await delay(fetchDelayMs)`, and
`resolveCall cid` is the promise held by caller `cid` resolving. -/
inductive Ev where
  | fetch (name : String)
  | delayWait (ms : Int)
  | resolveCall (cid : Nat)
deriving Repr, DecidableEq

/-- The loop body of `refreshImpl(accounts, force)`: processes the
accounts strictly in order, skipping those `shouldFetch` rejects,
awaiting the fixed delay before every fetch except the first, and
catching a per-account failure (which only logs a warning; `first` was
already cleared, and the loop continues). On success `fetchAndStore`
stores `{ summary, fetchedAt: Date.now() }`, saves and notifies. -/
def refreshImplGo (env : RefreshEnv) (cfg : UsageConfig) (force : Bool) :
    List Account → Bool → CacheState → CacheState × List Ev
  | [], _, st => (st, [])
  | a :: rest, first, st =>
    let res := shouldFetchStep env cfg a.name force st
    if res.1 then
      let pre : List Ev := if first then [] else [Ev.delayWait cfg.fetchDelayMs]
      match env.fetchRes a with
      | .ok summary =>
        let now := env.times res.2.tcount
        let st2 :=
          { res.2 with
            tcount := res.2.tcount + 1,
            cache := setEntry res.2.cache a.name { summary := summary, fetchedAt := now },
            saves := res.2.saves + 1,
            notifies := res.2.notifies + 1 }
        let next := refreshImplGo env cfg force rest false st2
        (next.1, pre ++ [Ev.fetch a.name] ++ next.2)
      | .error _ =>
        let st2 := { res.2 with warns := res.2.warns + 1 }
        let next := refreshImplGo env cfg force rest false st2
        (next.1, pre ++ [Ev.fetch a.name] ++ next.2)
    else
      refreshImplGo env cfg force rest first st

/-- `refreshImpl(accounts, force)`: the loop starts with `first = true`. -/
def refreshImpl (env : RefreshEnv) (cfg : UsageConfig) (accounts : List Account)
    (force : Bool) (st : CacheState) : CacheState × List Ev :=
  refreshImplGo env cfg force accounts true st

/-- The batch currently in flight: the accounts `refreshImpl` was
started with, its `force` flag, and the ids of the callers holding its
promise. -/
structure Flight where
  accounts : List Account
  force : Bool
  waiters : List Nat
deriving Repr, DecidableEq

/-- The single `pending` batch (`{ accounts, force, pruneMissing }`). -/
structure PendingBatch where
  accounts : List Account
  force : Bool
  pruneMissing : Bool
deriving Repr, DecidableEq

/-- The coordinator's state: the closure variables `cache` (with its
bookkeeping counters), `inFlight` and `pending`. -/
structure Machine where
  cs : CacheState
  inFlight : Option Flight
  pending : Option PendingBatch
deriving Repr

/-- What `enqueueRefresh` returned to its caller: an already-resolved
promise (`Promise.resolve()`), the promise of the batch already in
flight, or the promise of a batch started by this call. -/
inductive CallResult where
  | resolvedNow
  | joined
  | started
deriving Repr, DecidableEq

/-- The synchronous body of `enqueueRefresh(accounts, options)`:
normalize, prune if requested, return an already-resolved promise for an
empty normalized list; otherwise either merge into the (single) pending
batch while a flight is running, or start a new flight. `waiter` is the
id of the awaiting caller, `none` when the returned promise is dropped
(the dequeue call in the `finally` handler). -/
def enqueueRefresh (m : Machine) (accounts : List (Option RawAccount))
    (force pruneMissing : Bool) (waiter : Option Nat) :
    Machine × CallResult × List Ev :=
  let normalized := normalizeAccountsList accounts
  let cs1 :=
    if pruneMissing then pruneMissingAccounts (normalized.map Account.name) m.cs
    else m.cs
  if normalized.isEmpty then
    ({ m with cs := cs1 }, .resolvedNow,
     match waiter with
     | some cid => [Ev.resolveCall cid]
     | none => [])
  else
    match m.inFlight with
    | some fl =>
      let newPending : PendingBatch :=
        match m.pending with
        | some p =>
          { accounts := mergeByName p.accounts normalized,
            force := p.force || force,
            pruneMissing := p.pruneMissing || pruneMissing }
        | none =>
          { accounts := normalized, force := force, pruneMissing := pruneMissing }
      let fl1 :=
        match waiter with
        | some cid => { fl with waiters := fl.waiters ++ [cid] }
        | none => fl
      ({ cs := cs1, inFlight := some fl1, pending := some newPending },
       .joined, [])
    | none =>
      ({ cs := cs1,
         inFlight := some
           { accounts := normalized, force := force,
             waiters := match waiter with | some cid => [cid] | none => [] },
         pending := m.pending },
       .started, [])

/-- Running the in-flight batch to completion, then the `finally`
handler: clear `inFlight`, dequeue the pending batch (whose promise is
dropped) via `enqueueRefresh`, and only then do the awaiting callers'
promises resolve. The dequeued batch's own execution is a subsequent
`runFlight`. -/
def runFlight (env : RefreshEnv) (cfg : UsageConfig) (m : Machine) :
    Machine × List Ev :=
  match m.inFlight with
  | none => (m, [])
  | some fl =>
    let done := refreshImpl env cfg fl.accounts fl.force m.cs
    let m1 : Machine := { cs := done.1, inFlight := none, pending := m.pending }
    let dequeued :=
      match m1.pending with
      | some p =>
        let r := enqueueRefresh { m1 with pending := none }
          (p.accounts.map (fun (a : Account) =>
            some ({ name := some a.name, authFile := a.authFile } : RawAccount)))
          p.force p.pruneMissing none
        (r.1, r.2.2)
      | none => (m1, ([] : List Ev))
    (dequeued.1, done.2 ++ dequeued.2 ++ fl.waiters.map Ev.resolveCall)

/-- External stimuli of the coordinator: a call to
`refreshAccounts(accounts, { force, pruneMissing })` by caller `cid`, or
the in-flight batch running to completion. -/
inductive MInput where
  | call (cid : Nat) (accounts : List (Option RawAccount)) (force pruneMissing : Bool)
  | runBatch
deriving Repr

/-- One step of the coordinator. -/
def mstep (env : RefreshEnv) (cfg : UsageConfig) (m : Machine) :
    MInput → Machine × List Ev
  | .call cid accounts force pruneMissing =>
    let r := enqueueRefresh m accounts force pruneMissing (some cid)
    (r.1, r.2.2)
  | .runBatch => runFlight env cfg m

/-- Run the coordinator over a sequence of stimuli, collecting the
event trace. -/
def mrun (env : RefreshEnv) (cfg : UsageConfig) (m : Machine) :
    List MInput → Machine × List Ev
  | [] => (m, [])
  | i :: rest =>
    let r := mstep env cfg m i
    let r2 := mrun env cfg r.1 rest
    (r2.1, r.2 ++ r2.2)

/-- The queueing invariant: a pending batch only exists while a batch is
in flight (so there is never a queue of batches behind the flight). -/
def pendingBehindFlight (m : Machine) : Prop :=
  m.pending.isSome → m.inFlight.isSome

/-- The names of the fetch attempts in a trace, in order. -/
def fetchNames (tr : List Ev) : List String :=
  tr.filterMap (fun e =>
    match e with
    | .fetch n => some n
    | _ => none)

/-- The `message` field of a warning / error summary. -/
def summaryMessage : Summary → Option String
  | .warning m => some m
  | .error m => some m
  | .ok _ _ _ => none

/-- The expected trace of the fetched names `ns` when the loop starts
with `first = true`: one `delayWait d` strictly between consecutive
fetches, none before the first. -/
def fetchSeq (d : Int) : List String → List Ev
  | [] => []
  | [n] => [Ev.fetch n]
  | n :: rest => Ev.fetch n :: Ev.delayWait d :: fetchSeq d rest

/-- The expected trace when some fetch already happened before
(`first = false`): every fetch, including the first of `ns`, is preceded
by a delay. -/
def fetchSeqCont (d : Int) (ns : List String) : List Ev :=
  match ns with
  | [] => []
  | _ => Ev.delayWait d :: fetchSeq d ns

theorem strTake_of_length_le (s : String) (n : Nat) (h : s.length ≤ n) :
    strTake s n = s := by
  cases s with
  | mk data =>
    simp only [strTake]
    rw [List.take_of_length_le h]

theorem length_strTake (s : String) (n : Nat) :
    (strTake s n).length = min n s.length := by
  cases s with
  | mk data =>
    show (List.take n data).length = min n data.length
    exact List.length_take n data

theorem str_append_empty (s : String) : s ++ "" = s := by
  cases s with
  | mk data =>
    show String.mk (data ++ []) = String.mk data
    rw [List.append_nil]

theorem truncate_length_le (m : String) : (truncate m).length ≤ 160 := by
  unfold truncate
  split
  · rename_i h
    rw [String.length_append, length_strTake]
    have h3 : ("..." : String).length = 3 := by decide
    rw [h3]
    omega
  · rename_i h
    omega

/-- C5, counterexample: a cache file whose `version` field mismatches
the current version (0 instead of 1) but whose `entries` is a valid
object is NOT loaded as a fresh empty cache: `loadCache` never inspects
the version and keeps the entries, only normalizing the version field. -/
theorem c5_version_mismatch_counterexample :
    loadCache (some (.ok (.obj
        [("version", .num 0), ("entries", .obj [("a", .num 1)])]))) =
      { version := CACHE_VERSION, entries := .obj [("a", .num 1)] } ∧
    JSVal.obj [("a", JSVal.num 1)] ≠ JSVal.obj [] := by
  refine ⟨rfl, ?_⟩
  intro h
  simp at h

/-- C5, amended: `loadCache` never fails: its result always carries the
current version; a missing file, a read/parse failure, and a
wrong-shaped value (a non-object; or an `entries` field that is absent
or not an object) each yield a fresh empty cache. The stored `version`
field is ignored: whenever `entries` is a valid object it is retained
as-is, whatever the version was. -/
theorem c5_load_never_fails (inp : Option (Except String JSVal)) :
    (loadCache inp).version = CACHE_VERSION ∧
    (inp = none →
      loadCache inp = { version := CACHE_VERSION, entries := .obj [] }) ∧
    (∀ e, inp = some (.error e) →
      loadCache inp = { version := CACHE_VERSION, entries := .obj [] }) ∧
    (∀ v, inp = some (.ok v) → (v.truthy = false ∨ v.typeofObject = false) →
      loadCache inp = { version := CACHE_VERSION, entries := .obj [] }) ∧
    (∀ v, inp = some (.ok v) → v.getField "entries" = none →
      loadCache inp = { version := CACHE_VERSION, entries := .obj [] }) ∧
    (∀ v e, inp = some (.ok v) → v.getField "entries" = some e →
      (e.truthy = false ∨ e.typeofObject = false) →
      loadCache inp = { version := CACHE_VERSION, entries := .obj [] }) ∧
    (∀ fields E, inp = some (.ok (.obj fields)) →
      (JSVal.obj fields).getField "entries" = some (.obj E) →
      loadCache inp = { version := CACHE_VERSION, entries := .obj E }) := by
  refine ⟨?_, ?_, ?_, ?_, ?_, ?_, ?_⟩
  · match inp with
    | none => rfl
    | some (.error e) => rfl
    | some (.ok v) =>
      simp only [loadCache]
      split
      · rfl
      · rfl
  · intro h; subst h; rfl
  · intro e h; subst h; rfl
  · intro v h hcond; subst h
    simp only [loadCache]
    rw [if_pos]
    rcases hcond with h1 | h1 <;> simp [h1]
  · intro v h hget; subst h
    simp only [loadCache]
    split
    · rfl
    · rw [hget]
  · intro v e h hget hbad; subst h
    simp only [loadCache]
    split
    · rfl
    · rw [hget]
      rcases hbad with hb | hb <;> simp [hb]
  · intro fields E h hget; subst h
    simp only [loadCache]
    rw [if_neg]
    · rw [hget]
      simp [JSVal.truthy, JSVal.typeofObject]
    · simp [JSVal.truthy, JSVal.typeofObject]

/-- C5 witness: `c5_load_never_fails` evaluated at concrete inputs for
each failure shape (missing file, parse failure, non-object value,
absent `entries`, non-object `entries`) and for a valid entries
object. -/
theorem c5_load_never_fails_witness :
    loadCache none = { version := CACHE_VERSION, entries := .obj [] } ∧
    loadCache (some (.error "bad json")) =
      { version := CACHE_VERSION, entries := .obj [] } ∧
    loadCache (some (.ok (.num 5))) =
      { version := CACHE_VERSION, entries := .obj [] } ∧
    loadCache (some (.ok (.obj [("version", .num 1)]))) =
      { version := CACHE_VERSION, entries := .obj [] } ∧
    loadCache (some (.ok (.obj [("version", .num 1), ("entries", .num 5)]))) =
      { version := CACHE_VERSION, entries := .obj [] } ∧
    loadCache (some (.ok (.obj [("entries", .obj [("a", .num 1)])]))) =
      { version := CACHE_VERSION, entries := .obj [("a", .num 1)] } :=
  ⟨(c5_load_never_fails none).2.1 rfl,
   (c5_load_never_fails (some (.error "bad json"))).2.2.1 "bad json" rfl,
   (c5_load_never_fails (some (.ok (.num 5)))).2.2.2.1 (.num 5) rfl
     (.inr rfl),
   (c5_load_never_fails (some (.ok (.obj [("version", .num 1)])))).2.2.2.2.1
     (.obj [("version", .num 1)]) rfl rfl,
   (c5_load_never_fails
       (some (.ok (.obj [("version", .num 1), ("entries", .num 5)])))).2.2.2.2.2.1
     (.obj [("version", .num 1), ("entries", .num 5)]) (.num 5) rfl rfl (.inr rfl),
   (c5_load_never_fails
       (some (.ok (.obj [("entries", .obj [("a", .num 1)])])))).2.2.2.2.2.2
     [("entries", .obj [("a", .num 1)])] [("a", .num 1)] rfl rfl⟩

/-- C7, counterexample: the cache can hold an entry under the empty
name (reachable through the public `renameAccount("a", "")`), yet
`getSummary("")` returns absent because of the falsy-name guard — so
"for every cached name it returns the entry" fails at the empty name. -/
theorem c7_empty_name_counterexample :
    lookupEntry (renameAccount [("a", { summary := none, fetchedAt := 0 })] "a" "") "" =
      some { summary := none, fetchedAt := 0 } ∧
    getSummary defaultConfig
      (renameAccount [("a", { summary := none, fetchedAt := 0 })] "a" "") 5 "" = none :=
  ⟨rfl, rfl⟩

/-- C7, amended: `getSummary` returns absent for every name with no
cached entry; for every cached NONEMPTY name it is a pure read returning
the entry plus `ageMs = now - fetchedAt` and `stale` true exactly when
that age is at least the configured TTL (default 15 minutes = 900000
ms); a cached empty name also returns absent (falsy-name guard). -/
theorem c7_getSummary_spec (cfg : UsageConfig)
    (cache : List (String × CachedEntry)) (now : Int) (name : String) :
    (lookupEntry cache name = none → getSummary cfg cache now name = none) ∧
    (∀ e, name ≠ "" → lookupEntry cache name = some e →
      getSummary cfg cache now name =
        some { summary := e.summary, fetchedAt := e.fetchedAt,
               ageMs := now - e.fetchedAt,
               stale := decide (now - e.fetchedAt ≥ cfg.cacheTtlMs) }) ∧
    DEFAULT_CACHE_TTL_MS = 900000 ∧ defaultConfig.cacheTtlMs = 900000 := by
  refine ⟨?_, ?_, by decide, by decide⟩
  · intro hnone
    by_cases hn : name = ""
    · simp [getSummary, hn]
    · simp [getSummary, hn, hnone]
  · intro e hn hsome
    simp [getSummary, hn, hsome]

/-- C7 witness: `c7_getSummary_spec` at a concrete fresh and a concrete
stale entry. -/
theorem c7_getSummary_spec_witness :
    getSummary defaultConfig [("x", { summary := none, fetchedAt := 1 })] 5 "x" =
      some { summary := none, fetchedAt := 1, ageMs := 4, stale := false } ∧
    getSummary defaultConfig [("x", { summary := none, fetchedAt := 0 })] 900000 "x" =
      some { summary := none, fetchedAt := 0, ageMs := 900000, stale := true } ∧
    getSummary defaultConfig [] 5 "y" = none := by
  refine ⟨?_, ?_, ?_⟩
  · exact (c7_getSummary_spec defaultConfig
      [("x", { summary := none, fetchedAt := 1 })] 5 "x").2.1
      { summary := none, fetchedAt := 1 } (by decide) rfl
  · exact (c7_getSummary_spec defaultConfig
      [("x", { summary := none, fetchedAt := 0 })] 900000 "x").2.1
      { summary := none, fetchedAt := 0 } (by decide) rfl
  · exact (c7_getSummary_spec defaultConfig [] 5 "y").1 rfl

set_option maxRecDepth 4000 in
/-- C8, counterexample: a parse-error snapshot with a 200-character
message yields an error summary whose message is 179 characters long —
the "Invalid auth.json: " prefix is added AFTER the 160-character
truncation, so the claimed ≤160 bound fails for the parse-error
variant. -/
theorem c8_truncation_counterexample :
    ((summarizeUsageSnapshot
        (some (.parse_error (String.mk (List.replicate 200 'a'))))).bind
      summaryMessage).map String.length = some 179 ∧
    ¬(179 ≤ 160) := by
  refine ⟨rfl, by decide⟩

/-- C8, amended: every token-reader / fetcher failure variant maps to a
warning or error summary exactly as claimed (`missing`, `incomplete` →
warning; parse errors and request failures → error) and no network call
is attempted for an incomplete credential file such as
`{"tokens":{}}`; the human message is truncated to at most 160
characters for the `incomplete` and `error` variants (and the fixed
`missing` message is shorter), but the `parse_error` message is the
160-character truncation PREFIXED with "Invalid auth.json: ", so it is
only bounded by 179 characters. -/
theorem c8_failure_summaries :
    (∀ m, summarizeUsageSnapshot (some (.missing m)) =
        some (.warning "No auth.json found for this profile.") ∧
      ("No auth.json found for this profile." : String).length ≤ 160) ∧
    (∀ m, summarizeUsageSnapshot (some (.incomplete m)) =
        some (.warning (truncate m)) ∧ (truncate m).length ≤ 160) ∧
    (∀ m, summarizeUsageSnapshot (some (.error m)) =
        some (.error (truncate m)) ∧ (truncate m).length ≤ 160) ∧
    (∀ m, summarizeUsageSnapshot (some (.parse_error m)) =
        some (.error ("Invalid auth.json: " ++ truncate m)) ∧
      ("Invalid auth.json: " ++ truncate m).length ≤ 179) ∧
    (∀ net, fetchUsageSnapshot (.parsed (.obj [("tokens", .obj [])])) net =
        .incomplete "auth.json is missing access_token or account_id.") ∧
    summarizeUsageSnapshot
        (some (.incomplete "auth.json is missing access_token or account_id.")) =
      some (.warning "auth.json is missing access_token or account_id.") := by
  refine ⟨fun m => ⟨rfl, by decide⟩, fun m => ⟨rfl, truncate_length_le m⟩,
    fun m => ⟨rfl, truncate_length_le m⟩, fun m => ⟨rfl, ?_⟩, fun net => rfl, rfl⟩
  rw [String.length_append]
  have h19 : ("Invalid auth.json: " : String).length = 19 := by decide
  have := truncate_length_le m
  omega

theorem http_msg_contains_status (ts D : String) :
    ∃ pre post,
      "Usage request failed (HTTP " ++ ts ++ ")" ++ D =
        pre ++ ("HTTP " ++ ts) ++ post := by
  refine ⟨"Usage request failed (", ")" ++ D, ?_⟩
  rw [show ("Usage request failed (HTTP " : String) =
      "Usage request failed (" ++ "HTTP " from by decide]
  simp only [String.append_assoc]

theorem http_msg_contains_body_long (ts X : String) :
    ∃ pre post,
      "Usage request failed (HTTP " ++ ts ++ ")" ++ (": " ++ (X ++ "…")) =
        pre ++ X ++ post := by
  refine ⟨"Usage request failed (HTTP " ++ ts ++ ")" ++ ": ", "…", ?_⟩
  simp only [String.append_assoc]

theorem http_msg_contains_body_short (ts X : String) :
    ∃ pre post,
      "Usage request failed (HTTP " ++ ts ++ ")" ++ (": " ++ X) =
        pre ++ X ++ post := by
  refine ⟨"Usage request failed (HTTP " ++ ts ++ ")" ++ ": ", "", ?_⟩
  simp only [String.append_assoc, str_append_empty]

theorem http_msg_contains_body_none (ts : String) :
    ∃ pre post,
      "Usage request failed (HTTP " ++ ts ++ ")" ++ "" =
        pre ++ ("" : String) ++ post := by
  refine ⟨"Usage request failed (HTTP " ++ ts ++ ")" ++ "", "", ?_⟩
  simp only [str_append_empty]

/-- C9: for every non-2xx HTTP response the fetch outcome is an error
whose message contains the HTTP status code and the first (up to) 140
characters of the response body; concretely, HTTP 500 with body
"server error" yields an error summary whose message is
"Usage request failed (HTTP 500): server error", which contains
"HTTP 500" and "server error". -/
theorem c9_non2xx_detail :
    (∀ (status : Nat) (bodyText : String) (bodyJson : Except String JSVal),
      resOk status = false →
      ∃ msg,
        performUsageRequest (.response status (.ok bodyText) bodyJson) = .error msg ∧
        (∃ pre post, msg = pre ++ ("HTTP " ++ toString status) ++ post) ∧
        (∃ pre post, msg = pre ++ strTake bodyText 140 ++ post)) ∧
    performUsageRequest (.response 500 (.ok "server error") (.error "x")) =
      .error "Usage request failed (HTTP 500): server error" ∧
    summarizeUsageSnapshot
        (some (.error "Usage request failed (HTTP 500): server error")) =
      some (.error "Usage request failed (HTTP 500): server error") ∧
    "Usage request failed (HTTP 500): server error" =
      "Usage request failed (" ++ "HTTP 500" ++ "): server error" ∧
    "Usage request failed (HTTP 500): server error" =
      "Usage request failed (HTTP 500): " ++ "server error" := by
  refine ⟨?_, rfl, rfl, by decide, by decide⟩
  intro status bodyText bodyJson h
  simp only [performUsageRequest, h, Bool.false_eq_true, if_false]
  by_cases hb : bodyText = ""
  · subst hb
    rw [if_pos rfl, show strTake "" 140 = "" from rfl]
    exact ⟨_, rfl, http_msg_contains_status _ _, http_msg_contains_body_none _⟩
  · by_cases hlen : bodyText.length > 140
    · rw [if_neg hb, if_pos hlen]
      exact ⟨_, rfl, http_msg_contains_status _ _, http_msg_contains_body_long _ _⟩
    · rw [if_neg hb, if_neg hlen, strTake_of_length_le bodyText 140 (by omega)]
      exact ⟨_, rfl, http_msg_contains_status _ _, http_msg_contains_body_short _ _⟩

/-- C9 witness: `c9_non2xx_detail` applied at HTTP 500 with body
"server error". -/
theorem c9_non2xx_detail_witness :
    ∃ msg,
      performUsageRequest (.response 500 (.ok "server error") (.error "x")) =
        .error msg ∧
      (∃ pre post, msg = pre ++ ("HTTP " ++ toString 500) ++ post) ∧
      (∃ pre post, msg = pre ++ strTake "server error" 140 ++ post) :=
  c9_non2xx_detail.1 500 "server error" (.error "x") (by decide)

/-- C10: a `refreshAccounts` call whose accounts list normalizes to
empty, with `pruneMissing` set, synchronously deletes every cache entry
(the empty name set protects nothing), persists and notifies exactly
once iff the cache was non-empty, enqueues no batch (in-flight and
pending state untouched, no fetch event), and returns an
already-resolved promise — for every machine state, in particular while
a batch is in flight. -/
theorem c10_empty_list_prune_all (m : Machine)
    (accounts : List (Option RawAccount)) (force : Bool) (cid : Nat)
    (h : normalizeAccountsList accounts = []) :
    (enqueueRefresh m accounts force true (some cid)).1.cs.cache = [] ∧
    (enqueueRefresh m accounts force true (some cid)).2.1 = CallResult.resolvedNow ∧
    (enqueueRefresh m accounts force true (some cid)).1.inFlight = m.inFlight ∧
    (enqueueRefresh m accounts force true (some cid)).1.pending = m.pending ∧
    (enqueueRefresh m accounts force true (some cid)).2.2 = [Ev.resolveCall cid] ∧
    fetchNames (enqueueRefresh m accounts force true (some cid)).2.2 = [] ∧
    (m.cs.cache = [] → (enqueueRefresh m accounts force true (some cid)).1.cs = m.cs) ∧
    (m.cs.cache ≠ [] →
      (enqueueRefresh m accounts force true (some cid)).1.cs.notifies = m.cs.notifies + 1 ∧
      (enqueueRefresh m accounts force true (some cid)).1.cs.saves = m.cs.saves + 1) := by
  rcases hc : m.cs.cache with _ | ⟨hd, tl⟩ <;>
    simp [enqueueRefresh, h, pruneMissingAccounts, hc, fetchNames]

/-- C10 witness: `c10_empty_list_prune_all` at a concrete machine with
a batch in flight, a non-empty cache, and a list whose entries are a
non-object and two name-less / empty-name records. -/
theorem c10_empty_list_prune_all_witness :
    (enqueueRefresh
        { cs := { cache := [("old", { summary := none, fetchedAt := 0 })],
                  tcount := 0, saves := 0, notifies := 0, warns := 0 },
          inFlight := some { accounts := [{ name := "run", authFile := none }],
                             force := false, waiters := [3] },
          pending := none }
        [none, some { name := none, authFile := some "x" },
         some { name := some "", authFile := some "y" }]
        false true (some 7)).1.cs.cache = [] ∧
    (enqueueRefresh
        { cs := { cache := [("old", { summary := none, fetchedAt := 0 })],
                  tcount := 0, saves := 0, notifies := 0, warns := 0 },
          inFlight := some { accounts := [{ name := "run", authFile := none }],
                             force := false, waiters := [3] },
          pending := none }
        [none, some { name := none, authFile := some "x" },
         some { name := some "", authFile := some "y" }]
        false true (some 7)).2.1 = CallResult.resolvedNow ∧
    (enqueueRefresh
        { cs := { cache := [("old", { summary := none, fetchedAt := 0 })],
                  tcount := 0, saves := 0, notifies := 0, warns := 0 },
          inFlight := some { accounts := [{ name := "run", authFile := none }],
                             force := false, waiters := [3] },
          pending := none }
        [none, some { name := none, authFile := some "x" },
         some { name := some "", authFile := some "y" }]
        false true (some 7)).2.2 = [Ev.resolveCall 7] ∧
    (enqueueRefresh
        { cs := { cache := [("old", { summary := none, fetchedAt := 0 })],
                  tcount := 0, saves := 0, notifies := 0, warns := 0 },
          inFlight := some { accounts := [{ name := "run", authFile := none }],
                             force := false, waiters := [3] },
          pending := none }
        [none, some { name := none, authFile := some "x" },
         some { name := some "", authFile := some "y" }]
        false true (some 7)).1.cs.notifies = 1 := by
  have T := c10_empty_list_prune_all
    { cs := { cache := [("old", { summary := none, fetchedAt := 0 })],
              tcount := 0, saves := 0, notifies := 0, warns := 0 },
      inFlight := some { accounts := [{ name := "run", authFile := none }],
                         force := false, waiters := [3] },
      pending := none }
    [none, some { name := none, authFile := some "x" },
     some { name := some "", authFile := some "y" }]
    false 7 (by rfl)
  exact ⟨T.1, T.2.1, T.2.2.2.2.1, (T.2.2.2.2.2.2.2 (by simp)).1⟩

theorem fetchSeq_cons (d : Int) (n : String) (l : List String) :
    fetchSeq d (n :: l) = Ev.fetch n :: fetchSeqCont d l := by
  cases l <;> rfl

theorem fetchSeqCont_cons (d : Int) (n : String) (l : List String) :
    fetchSeqCont d (n :: l) = Ev.delayWait d :: Ev.fetch n :: fetchSeqCont d l := by
  rw [show fetchSeqCont d (n :: l) = Ev.delayWait d :: fetchSeq d (n :: l) from rfl,
    fetchSeq_cons]

theorem fetchNames_fetchSeq (d : Int) (l : List String) :
    fetchNames (fetchSeq d l) = l := by
  induction l with
  | nil => rfl
  | cons n t ih =>
    rw [fetchSeq_cons]
    cases t with
    | nil => rfl
    | cons m t2 =>
      rw [show fetchSeqCont d (m :: t2) = Ev.delayWait d :: fetchSeq d (m :: t2) from rfl]
      show n :: fetchNames (fetchSeq d (m :: t2)) = n :: (m :: t2)
      rw [ih]

/-- Shape of the `refreshImpl` loop trace: for some list `ns` of
attempted names (a subset of the accounts, in order; all of them when
`force` is set), the trace is exactly the fetches of `ns` with a single
delay before each one except — when no fetch happened yet — the first. -/
theorem refreshImplGo_shape (env : RefreshEnv) (cfg : UsageConfig) (force : Bool) :
    ∀ (accounts : List Account) (first : Bool) (st : CacheState),
      ∃ ns : List String,
        (refreshImplGo env cfg force accounts first st).2 =
          (if first then fetchSeq cfg.fetchDelayMs ns
           else fetchSeqCont cfg.fetchDelayMs ns) ∧
        ns.Sublist (accounts.map Account.name) ∧
        (force = true → ns = accounts.map Account.name) := by
  intro accounts
  induction accounts with
  | nil =>
    intro first st
    exact ⟨[], by cases first <;> rfl, List.nil_sublist _, fun _ => rfl⟩
  | cons a rest ih =>
    intro first st
    by_cases hsf : (shouldFetchStep env cfg a.name force st).1
    · rcases hfr : env.fetchRes a with eMsg | s
      all_goals
        obtain ⟨ns', h1, h2, h3⟩ := ih false _
        refine ⟨a.name :: ns', ?_, h2.cons₂ a.name, fun hf => by rw [h3 hf, List.map_cons]⟩
        simp only [Bool.false_eq_true, if_false] at h1
        simp only [refreshImplGo, if_pos hsf, hfr]
        cases first
      case pos.error.intro.intro.intro.false | pos.ok.intro.intro.intro.false =>
        simp only [Bool.false_eq_true, if_false, List.cons_append, List.nil_append,
          List.singleton_append]
        rw [h1, fetchSeqCont_cons]
      case pos.error.intro.intro.intro.true | pos.ok.intro.intro.intro.true =>
        simp only [if_true, List.cons_append, List.nil_append, List.singleton_append]
        rw [h1, fetchSeq_cons]
    · obtain ⟨ns, h1, h2, h3⟩ := ih first st
      refine ⟨ns, ?_, h2.cons a.name, fun hf => ?_⟩
      · show (refreshImplGo env cfg force (a :: rest) first st).2 = _
        simp only [refreshImplGo, if_neg hsf]
        exact h1
      · exfalso
        subst hf
        exact hsf rfl

/-- C3: a batch processes its accounts strictly in order: the trace is
exactly one fetch per attempted name (a sublist of the batch, all of it
under `force`), with the fixed delay strictly between successive
attempts, none before the first and none for skipped profiles; a lone
cached profile is fetched exactly when its age is at least the TTL —
concretely, with the 15-minute default TTL a 20-minute-old entry gives
exactly one fetch and a 5-minute-old entry gives none; the defaults are
15 minutes and 2000 ms. -/
theorem c3_sequential_ttl_and_delay :
    (∀ (env : RefreshEnv) (cfg : UsageConfig) (accounts : List Account)
        (force : Bool) (st : CacheState),
      ∃ ns : List String,
        (refreshImpl env cfg accounts force st).2 = fetchSeq cfg.fetchDelayMs ns ∧
        fetchNames (refreshImpl env cfg accounts force st).2 = ns ∧
        ns.Sublist (accounts.map Account.name) ∧
        (force = true → ns = accounts.map Account.name)) ∧
    (∀ (env : RefreshEnv) (cfg : UsageConfig) (a : Account) (e : CachedEntry)
        (st : CacheState),
      lookupEntry st.cache a.name = some e →
      fetchNames (refreshImpl env cfg [a] false st).2 =
        (if env.times st.tcount - e.fetchedAt ≥ cfg.cacheTtlMs
         then [a.name] else [])) ∧
    (refreshImpl { fetchRes := fun _ => .ok none, times := fun _ => 0 }
        defaultConfig [{ name := "work", authFile := none }] false
        { cache := [("work", { summary := none, fetchedAt := -1200000 })],
          tcount := 0, saves := 0, notifies := 0, warns := 0 }).2 =
      [Ev.fetch "work"] ∧
    (refreshImpl { fetchRes := fun _ => .ok none, times := fun _ => 0 }
        defaultConfig [{ name := "work", authFile := none }] false
        { cache := [("work", { summary := none, fetchedAt := -300000 })],
          tcount := 0, saves := 0, notifies := 0, warns := 0 }).2 = [] ∧
    DEFAULT_CACHE_TTL_MS = 900000 ∧ DEFAULT_FETCH_DELAY_MS = 2000 := by
  refine ⟨?_, ?_, rfl, rfl, by decide, by decide⟩
  · intro env cfg accounts force st
    obtain ⟨ns, h1, h2, h3⟩ := refreshImplGo_shape env cfg force accounts true st
    simp only [if_true] at h1
    exact ⟨ns, h1, by rw [show (refreshImpl env cfg accounts force st).2 =
      (refreshImplGo env cfg force accounts true st).2 from rfl, h1,
      fetchNames_fetchSeq], h2, h3⟩
  · intro env cfg a e st hlook
    show fetchNames (refreshImplGo env cfg false [a] true st).2 = _
    simp only [refreshImplGo, shouldFetchStep, Bool.false_eq_true, if_false, hlook]
    by_cases hage : cfg.cacheTtlMs ≤ env.times st.tcount - e.fetchedAt
    · rcases hfr : env.fetchRes a with eMsg | s <;>
        simp [hfr, refreshImplGo, fetchNames, hage, ge_iff_le]
    · simp [refreshImplGo, fetchNames, hage, ge_iff_le]

/-- C3 witness: the general conjuncts applied at a concrete
single-account batch with a 20-minute-old entry. -/
theorem c3_sequential_ttl_and_delay_witness :
    fetchNames (refreshImpl { fetchRes := fun _ => .ok none, times := fun _ => 0 }
        defaultConfig [{ name := "work", authFile := none }] false
        { cache := [("work", { summary := none, fetchedAt := -1200000 })],
          tcount := 0, saves := 0, notifies := 0, warns := 0 }).2 =
      (if (0 : Int) - (-1200000) ≥ defaultConfig.cacheTtlMs
       then ["work"] else []) :=
  c3_sequential_ttl_and_delay.2.1
    { fetchRes := fun _ => .ok none, times := fun _ => 0 } defaultConfig
    { name := "work", authFile := none } { summary := none, fetchedAt := -1200000 }
    { cache := [("work", { summary := none, fetchedAt := -1200000 })],
      tcount := 0, saves := 0, notifies := 0, warns := 0 } rfl

/-- C6: per-profile fetch failures are caught inside the batch loop:
whatever the fetch oracle does — including rejecting — a forced batch
still attempts every account, the batch runs to completion and the
promise resolution of every waiting caller still happens (the promise
never rejects because of individual profile failures); concretely, an
oracle failing on "a" and succeeding on "b" yields the full trace
`[fetch a, delay, fetch b]` with one warning logged, no entry stored for
"a" and an entry stored for "b". -/
theorem c6_failures_are_caught :
    (∀ (env : RefreshEnv) (cfg : UsageConfig) (accounts : List Account)
        (st : CacheState),
      fetchNames (refreshImpl env cfg accounts true st).2 =
        accounts.map Account.name) ∧
    (∀ (env : RefreshEnv) (cfg : UsageConfig) (m : Machine) (fl : Flight),
      m.inFlight = some fl →
      ∀ cid ∈ fl.waiters, Ev.resolveCall cid ∈ (runFlight env cfg m).2) ∧
    (refreshImpl
        { fetchRes := fun a => if a.name = "a" then .error "boom" else .ok none,
          times := fun _ => 0 }
        defaultConfig
        [{ name := "a", authFile := none }, { name := "b", authFile := none }] true
        { cache := [], tcount := 0, saves := 0, notifies := 0, warns := 0 }).2 =
      [Ev.fetch "a", Ev.delayWait 2000, Ev.fetch "b"] ∧
    (refreshImpl
        { fetchRes := fun a => if a.name = "a" then .error "boom" else .ok none,
          times := fun _ => 0 }
        defaultConfig
        [{ name := "a", authFile := none }, { name := "b", authFile := none }] true
        { cache := [], tcount := 0, saves := 0, notifies := 0, warns := 0 }).1.warns = 1 ∧
    lookupEntry (refreshImpl
        { fetchRes := fun a => if a.name = "a" then .error "boom" else .ok none,
          times := fun _ => 0 }
        defaultConfig
        [{ name := "a", authFile := none }, { name := "b", authFile := none }] true
        { cache := [], tcount := 0, saves := 0, notifies := 0, warns := 0 }).1.cache "a" =
      none ∧
    lookupEntry (refreshImpl
        { fetchRes := fun a => if a.name = "a" then .error "boom" else .ok none,
          times := fun _ => 0 }
        defaultConfig
        [{ name := "a", authFile := none }, { name := "b", authFile := none }] true
        { cache := [], tcount := 0, saves := 0, notifies := 0, warns := 0 }).1.cache "b" =
      some { summary := none, fetchedAt := 0 } := by
  refine ⟨?_, ?_, rfl, rfl, rfl, rfl⟩
  · intro env cfg accounts st
    obtain ⟨ns, h1, h2, h3⟩ := refreshImplGo_shape env cfg true accounts true st
    simp only [if_true] at h1
    rw [show (refreshImpl env cfg accounts true st).2 =
      (refreshImplGo env cfg true accounts true st).2 from rfl, h1,
      fetchNames_fetchSeq, h3 rfl]
  · intro env cfg m fl hfl cid hcid
    simp only [runFlight, hfl]
    rcases m.pending with _ | p <;>
      exact List.mem_append_right _ (List.mem_map_of_mem Ev.resolveCall hcid)

/-- C6 witness: every waiter of a concrete in-flight batch (with an
always-failing oracle) is resolved by the batch completing. -/
theorem c6_failures_are_caught_witness :
    Ev.resolveCall 4 ∈ (runFlight
      { fetchRes := fun _ => .error "boom", times := fun _ => 0 } defaultConfig
      { cs := { cache := [], tcount := 0, saves := 0, notifies := 0, warns := 0 },
        inFlight := some { accounts := [{ name := "a", authFile := none }],
                           force := true, waiters := [3, 4] },
        pending := none }).2 :=
  c6_failures_are_caught.2.1
    { fetchRes := fun _ => .error "boom", times := fun _ => 0 } defaultConfig
    { cs := { cache := [], tcount := 0, saves := 0, notifies := 0, warns := 0 },
      inFlight := some { accounts := [{ name := "a", authFile := none }],
                         force := true, waiters := [3, 4] },
      pending := none }
    { accounts := [{ name := "a", authFile := none }], force := true, waiters := [3, 4] }
    rfl 4 (by decide)

theorem accFind_cons (c : Account) (t : List Account) (n : String) :
    accFind (c :: t) n = if c.name = n then some c else accFind t n := by
  by_cases h : c.name = n
  · rw [accFind, List.find?_cons_of_pos _ (by simpa using h), if_pos h]
  · rw [accFind, List.find?_cons_of_neg _ (by simpa using h), if_neg h]
    rfl

theorem accFind_map_overwrite_mem (m : List Account) (a : Account)
    (h : m.any (fun b => b.name = a.name) = true) :
    accFind (m.map (fun b => if b.name = a.name then a else b)) a.name = some a := by
  induction m with
  | nil => simp at h
  | cons c t ih =>
    rw [List.map_cons]
    by_cases hc : c.name = a.name
    · rw [if_pos hc, accFind_cons, if_pos rfl]
    · rw [if_neg hc, accFind_cons, if_neg hc]
      refine ih ?_
      rw [List.any_cons] at h
      rcases Bool.or_eq_true_iff.mp h with h1 | h1
      · exact absurd (of_decide_eq_true h1) hc
      · exact h1

theorem accFind_map_overwrite_ne (m : List Account) (a : Account) (n : String)
    (h : n ≠ a.name) :
    accFind (m.map (fun b => if b.name = a.name then a else b)) n = accFind m n := by
  induction m with
  | nil => rfl
  | cons c t ih =>
    rw [List.map_cons, accFind_cons, accFind_cons]
    by_cases hc : c.name = a.name
    · have h1 : ¬(a.name = n) := fun hh => h hh.symm
      have h2 : ¬(c.name = n) := by rw [hc]; exact h1
      rw [if_pos hc, if_neg h1, if_neg h2, ih]
    · rw [if_neg hc]
      by_cases hcn : c.name = n
      · rw [if_pos hcn, if_pos hcn]
      · rw [if_neg hcn, if_neg hcn, ih]

theorem accFind_append_single (m : List Account) (a : Account) (n : String)
    (h : m.any (fun b => b.name = a.name) = false) :
    accFind (m ++ [a]) n = if n = a.name then some a else accFind m n := by
  induction m with
  | nil =>
    rw [List.nil_append, accFind_cons]
    by_cases hn : a.name = n
    · rw [if_pos hn, if_pos hn.symm]
    · rw [if_neg hn, if_neg (fun hh => hn hh.symm)]
  | cons c t ih =>
    rw [List.any_cons] at h
    rcases Bool.or_eq_false_iff.mp h with ⟨h1, h2⟩
    have hc : ¬(c.name = a.name) := of_decide_eq_false h1
    rw [List.cons_append, accFind_cons, accFind_cons]
    by_cases hcn : c.name = n
    · have hn : ¬(n = a.name) := fun hh => hc (hcn.trans hh)
      rw [if_pos hcn, if_neg hn, if_pos hcn]
    · rw [if_neg hcn, if_neg hcn, ih h2]

theorem accFind_mapSetByName (m : List Account) (a : Account) (n : String) :
    accFind (mapSetByName m a) n = if n = a.name then some a else accFind m n := by
  unfold mapSetByName
  by_cases hany : m.any (fun b => b.name = a.name) = true
  · rw [if_pos hany]
    by_cases hn : n = a.name
    · subst hn
      rw [if_pos rfl]
      exact accFind_map_overwrite_mem m a hany
    · rw [if_neg hn]
      exact accFind_map_overwrite_ne m a n hn
  · rw [if_neg hany]
    exact accFind_append_single m a n (Bool.eq_false_iff.mpr hany)

theorem accFind_foldl_mapSet (l : List Account) :
    ∀ (acc : List Account) (n : String),
      accFind (l.foldl mapSetByName acc) n =
        match findLastByName l n with
        | some a => some a
        | none => accFind acc n := by
  induction l with
  | nil => intro acc n; rfl
  | cons a t ih =>
    intro acc n
    rw [List.foldl_cons, ih (mapSetByName acc a) n]
    cases hft : findLastByName t n with
    | some b => simp [findLastByName, hft]
    | none =>
      simp only [findLastByName, hft]
      rw [accFind_mapSetByName]
      by_cases hn : a.name = n
      · rw [if_pos hn, if_pos hn.symm]
      · rw [if_neg hn, if_neg (fun hh => hn hh.symm)]

/-- The `Map`-merge in `enqueueRefresh` is last-write-wins with the
incoming accounts overwriting the pending ones. -/
theorem accFind_mergeByName (base incoming : List Account) (n : String) :
    accFind (mergeByName base incoming) n =
      match findLastByName incoming n with
      | some a => some a
      | none => findLastByName base n := by
  unfold mergeByName
  rw [accFind_foldl_mapSet]
  cases findLastByName incoming n with
  | some a => rfl
  | none =>
    simp only []
    rw [accFind_foldl_mapSet]
    cases findLastByName base n with
    | some b => rfl
    | none => rfl

theorem lookupEntry_cons (hd : String × CachedEntry) (t : List (String × CachedEntry))
    (n : String) :
    lookupEntry (hd :: t) n = if hd.1 = n then some hd.2 else lookupEntry t n := by
  by_cases h : hd.1 = n
  · rw [lookupEntry, List.find?_cons_of_pos _ (by simpa using h), if_pos h]
    rfl
  · rw [lookupEntry, List.find?_cons_of_neg _ (by simpa using h), if_neg h]
    rfl

theorem lookupEntry_filter_contains (cache : List (String × CachedEntry))
    (N : List String) (n : String) :
    lookupEntry (cache.filter (fun p => N.contains p.1)) n =
      if N.contains n = true then lookupEntry cache n else none := by
  induction cache with
  | nil =>
    by_cases hN : N.contains n = true <;> simp [lookupEntry, hN]
  | cons hd t ih =>
    rw [List.filter_cons]
    by_cases hn : hd.1 = n
    · subst hn
      by_cases hc : N.contains hd.1 = true
      · rw [if_pos (by simpa using hc), lookupEntry_cons, if_pos rfl, if_pos hc,
          lookupEntry_cons, if_pos rfl]
      · rw [if_neg (by simpa using hc), ih, if_neg hc, if_neg hc]
    · by_cases hc : N.contains hd.1 = true
      · rw [if_pos (by simpa using hc), lookupEntry_cons, if_neg hn, ih]
        by_cases hN : N.contains n = true
        · rw [if_pos hN, if_pos hN, lookupEntry_cons, if_neg hn]
        · rw [if_neg hN, if_neg hN]
      · rw [if_neg (by simpa using hc), ih]
        by_cases hN : N.contains n = true
        · rw [if_pos hN, if_pos hN, lookupEntry_cons, if_neg hn]
        · rw [if_neg hN, if_neg hN]

theorem pruneMissingAccounts_eq (names : List String) (st : CacheState) :
    pruneMissingAccounts names st =
      (if (st.cache.filter (fun p => names.contains p.1)).length = st.cache.length
       then st
       else
         { st with
           cache := st.cache.filter (fun p => names.contains p.1),
           saves := st.saves + 1,
           notifies := st.notifies + 1 }) := rfl

theorem pruneMissing_all_kept (names : List String) (st : CacheState)
    (h : st.cache.all (fun p => names.contains p.1) = true) :
    pruneMissingAccounts names st = st := by
  rw [pruneMissingAccounts_eq, if_pos]
  rw [List.filter_eq_self.mpr (by simpa using List.all_eq_true.mp h)]

theorem pruneMissing_some_dropped (names : List String) (st : CacheState)
    (h : st.cache.all (fun p => names.contains p.1) = false) :
    pruneMissingAccounts names st =
      { st with
        cache := st.cache.filter (fun p => names.contains p.1),
        saves := st.saves + 1,
        notifies := st.notifies + 1 } := by
  rw [pruneMissingAccounts_eq, if_neg]
  intro heq
  have hfe := (List.filter_sublist st.cache).eq_of_length heq
  have h2 : st.cache.all (fun p => names.contains p.1) = true :=
    List.all_eq_true.mpr (by simpa using List.filter_eq_self.mp hfe)
  rw [h2] at h
  exact Bool.noConfusion h

theorem pruneMissing_lookup_kept (names : List String) (st : CacheState) (n : String)
    (h : names.contains n = true) :
    lookupEntry (pruneMissingAccounts names st).cache n = lookupEntry st.cache n := by
  rw [pruneMissingAccounts_eq]
  split
  · rfl
  · show lookupEntry (st.cache.filter (fun p => names.contains p.1)) n = _
    rw [lookupEntry_filter_contains, if_pos h]

theorem pruneMissing_lookup_dropped (names : List String) (st : CacheState) (n : String)
    (h : names.contains n = false) :
    lookupEntry (pruneMissingAccounts names st).cache n = none := by
  rw [pruneMissingAccounts_eq]
  split
  · rename_i hlen
    have hfe : st.cache.filter (fun p => names.contains p.1) = st.cache :=
      (List.filter_sublist st.cache).eq_of_length hlen
    have hall : ∀ p ∈ st.cache, names.contains p.1 = true := by
      intro p hp
      simpa using List.filter_eq_self.mp hfe p hp
    cases hfind : List.find? (fun p => decide (p.1 = n)) st.cache with
    | none =>
      rw [lookupEntry, hfind]
      rfl
    | some pr =>
      have hmem := List.mem_of_find?_eq_some hfind
      have hpr : pr.1 = n := by simpa using List.find?_some hfind
      have hcontra := hall pr hmem
      rw [hpr, h] at hcontra
      exact Bool.noConfusion hcontra
  · show lookupEntry (st.cache.filter (fun p => names.contains p.1)) n = _
    rw [lookupEntry_filter_contains, if_neg (by rw [h]; exact Bool.noConfusion)]

theorem enqueueRefresh_cs (m : Machine) (accounts : List (Option RawAccount))
    (force prune : Bool) (waiter : Option Nat) :
    (enqueueRefresh m accounts force prune waiter).1.cs =
      (if prune then
        pruneMissingAccounts ((normalizeAccountsList accounts).map Account.name) m.cs
       else m.cs) := by
  simp only [enqueueRefresh]
  split
  · rfl
  · split
    · rfl
    · rfl

theorem enqueueRefresh_trace_no_fetch (m : Machine)
    (accounts : List (Option RawAccount)) (force prune : Bool)
    (waiter : Option Nat) :
    fetchNames (enqueueRefresh m accounts force prune waiter).2.2 = [] := by
  simp only [enqueueRefresh]
  split
  · rcases waiter with _ | cid <;> rfl
  · split
    · rfl
    · rfl

/-- C4: a call with `pruneMissing` synchronously prunes, whatever the
in-flight state is and before any fetch of the request (its own
events contain no fetch): entries named in the normalized list keep
their exact cached value, every other entry is deleted, and when
anything was deleted the cache is saved and the listeners notified
exactly once (and not at all otherwise). -/
theorem c4_prune_before_fetch (m : Machine) (accounts : List (Option RawAccount))
    (force : Bool) (cid : Nat) :
    (∀ n, ((normalizeAccountsList accounts).map Account.name).contains n = true →
      lookupEntry (enqueueRefresh m accounts force true (some cid)).1.cs.cache n =
        lookupEntry m.cs.cache n) ∧
    (∀ n, ((normalizeAccountsList accounts).map Account.name).contains n = false →
      lookupEntry (enqueueRefresh m accounts force true (some cid)).1.cs.cache n =
        none) ∧
    (m.cs.cache.all
        (fun p =>
          ((normalizeAccountsList accounts).map Account.name).contains p.1) = true →
      (enqueueRefresh m accounts force true (some cid)).1.cs = m.cs) ∧
    (m.cs.cache.all
        (fun p =>
          ((normalizeAccountsList accounts).map Account.name).contains p.1) = false →
      (enqueueRefresh m accounts force true (some cid)).1.cs.notifies =
        m.cs.notifies + 1 ∧
      (enqueueRefresh m accounts force true (some cid)).1.cs.saves =
        m.cs.saves + 1) ∧
    fetchNames (enqueueRefresh m accounts force true (some cid)).2.2 = [] := by
  have hcs := enqueueRefresh_cs m accounts force true (some cid)
  rw [if_pos rfl] at hcs
  refine ⟨?_, ?_, ?_, ?_, enqueueRefresh_trace_no_fetch m accounts force true (some cid)⟩
  · intro n hn
    rw [hcs]
    exact pruneMissing_lookup_kept _ _ _ hn
  · intro n hn
    rw [hcs]
    exact pruneMissing_lookup_dropped _ _ _ hn
  · intro hall
    rw [hcs]
    exact pruneMissing_all_kept _ _ hall
  · intro hall
    rw [hcs, pruneMissing_some_dropped _ _ hall]
    exact ⟨rfl, rfl⟩

/-- C4 witness: `c4_prune_before_fetch` at a concrete machine with a
batch in flight and a cache holding a protected and an unprotected
entry. -/
theorem c4_prune_before_fetch_witness :
    lookupEntry (enqueueRefresh
        { cs := { cache := [("keep", { summary := none, fetchedAt := 7 }),
                            ("drop", { summary := none, fetchedAt := 8 })],
                  tcount := 0, saves := 0, notifies := 0, warns := 0 },
          inFlight := some { accounts := [{ name := "run", authFile := none }],
                             force := false, waiters := [1] },
          pending := none }
        [some { name := some "keep", authFile := none }]
        false true (some 9)).1.cs.cache "keep" =
      some { summary := none, fetchedAt := 7 } ∧
    lookupEntry (enqueueRefresh
        { cs := { cache := [("keep", { summary := none, fetchedAt := 7 }),
                            ("drop", { summary := none, fetchedAt := 8 })],
                  tcount := 0, saves := 0, notifies := 0, warns := 0 },
          inFlight := some { accounts := [{ name := "run", authFile := none }],
                             force := false, waiters := [1] },
          pending := none }
        [some { name := some "keep", authFile := none }]
        false true (some 9)).1.cs.cache "drop" = none ∧
    (enqueueRefresh
        { cs := { cache := [("keep", { summary := none, fetchedAt := 7 }),
                            ("drop", { summary := none, fetchedAt := 8 })],
                  tcount := 0, saves := 0, notifies := 0, warns := 0 },
          inFlight := some { accounts := [{ name := "run", authFile := none }],
                             force := false, waiters := [1] },
          pending := none }
        [some { name := some "keep", authFile := none }]
        false true (some 9)).1.cs.notifies = 1 := by
  have T := c4_prune_before_fetch
    { cs := { cache := [("keep", { summary := none, fetchedAt := 7 }),
                        ("drop", { summary := none, fetchedAt := 8 })],
              tcount := 0, saves := 0, notifies := 0, warns := 0 },
      inFlight := some { accounts := [{ name := "run", authFile := none }],
                         force := false, waiters := [1] },
      pending := none }
    [some { name := some "keep", authFile := none }] false 9
  refine ⟨(T.1 "keep" rfl).trans rfl, T.2.1 "drop" rfl, (T.2.2.2.1 rfl).1⟩

theorem pendingBehindFlight_enqueue (m : Machine)
    (accounts : List (Option RawAccount)) (force prune : Bool)
    (waiter : Option Nat) (h : pendingBehindFlight m) :
    pendingBehindFlight (enqueueRefresh m accounts force prune waiter).1 := by
  simp only [enqueueRefresh]
  split
  · exact h
  · split
    · intro _
      rfl
    · intro _
      rfl

theorem pendingBehindFlight_runFlight (env : RefreshEnv) (cfg : UsageConfig)
    (m : Machine) (h : pendingBehindFlight m) :
    pendingBehindFlight (runFlight env cfg m).1 := by
  rcases hfl : m.inFlight with _ | fl
  · simp only [runFlight, hfl]
    exact h
  · simp only [runFlight, hfl]
    rcases hp : m.pending with _ | p
    · simp only [hp]
      intro h'
      exact absurd h' (by simp)
    · simp only [hp]
      apply pendingBehindFlight_enqueue
      intro h'
      exact absurd h' (by simp)

theorem pendingBehindFlight_mrun (env : RefreshEnv) (cfg : UsageConfig) :
    ∀ (inputs : List MInput) (m : Machine), pendingBehindFlight m →
      pendingBehindFlight (mrun env cfg m inputs).1 := by
  intro inputs
  induction inputs with
  | nil =>
    intro m h
    exact h
  | cons i rest ih =>
    intro m h
    simp only [mrun]
    apply ih
    cases i with
    | call cid accounts force prune =>
      exact pendingBehindFlight_enqueue m accounts force prune (some cid) h
    | runBatch =>
      exact pendingBehindFlight_runFlight env cfg m h

/-- C1: a `refreshAccounts` call arriving while a batch is in flight
does not start fetching (the in-flight batch is untouched and the call
emits no fetch): the caller joins the running batch's promise and the
request is merged into the SINGLE pending batch — by name with the
incoming (later) values overwriting the pending ones — with the
`force` / `pruneMissing` flags OR'd in; and across every run of the
coordinator a pending batch only ever exists behind the (at most one)
in-flight batch, so there is never a queue of batches. -/
theorem c1_coalesce_into_single_pending (m : Machine) (fl : Flight)
    (accounts : List (Option RawAccount)) (force prune : Bool) (cid : Nat)
    (hfl : m.inFlight = some fl)
    (hne : normalizeAccountsList accounts ≠ []) :
    (enqueueRefresh m accounts force prune (some cid)).2.1 = CallResult.joined ∧
    (enqueueRefresh m accounts force prune (some cid)).2.2 = [] ∧
    (enqueueRefresh m accounts force prune (some cid)).1.inFlight =
      some { accounts := fl.accounts, force := fl.force,
             waiters := fl.waiters ++ [cid] } ∧
    (∃ p', (enqueueRefresh m accounts force prune (some cid)).1.pending = some p' ∧
      (match m.pending with
       | none =>
         p'.accounts = normalizeAccountsList accounts ∧
         p'.force = force ∧ p'.pruneMissing = prune
       | some p =>
         p'.force = (p.force || force) ∧
         p'.pruneMissing = (p.pruneMissing || prune) ∧
         ∀ n, accFind p'.accounts n =
           (match findLastByName (normalizeAccountsList accounts) n with
            | some a => some a
            | none => findLastByName p.accounts n))) ∧
    (∀ (env : RefreshEnv) (cfg : UsageConfig) (m0 : Machine) (inputs : List MInput),
      pendingBehindFlight m0 → pendingBehindFlight (mrun env cfg m0 inputs).1) := by
  have hE : (normalizeAccountsList accounts).isEmpty = false := by
    rcases hh : normalizeAccountsList accounts with _ | ⟨x, xs⟩
    · exact absurd hh hne
    · rfl
  rcases hp : m.pending with _ | p <;>
    simp only [enqueueRefresh, hE, Bool.false_eq_true, if_false, hfl, hp]
  · exact ⟨trivial, trivial, trivial, ⟨_, rfl, rfl, rfl, rfl⟩,
      fun env cfg m0 inputs h => pendingBehindFlight_mrun env cfg inputs m0 h⟩
  · exact ⟨trivial, trivial, trivial,
      ⟨_, rfl, rfl, rfl, fun n => accFind_mergeByName p.accounts _ n⟩,
      fun env cfg m0 inputs h => pendingBehindFlight_mrun env cfg inputs m0 h⟩

/-- C1 witness: `c1_coalesce_into_single_pending` at a concrete machine
with a batch in flight and an existing pending batch. -/
theorem c1_coalesce_into_single_pending_witness :
    (enqueueRefresh
        { cs := { cache := [], tcount := 0, saves := 0, notifies := 0, warns := 0 },
          inFlight := some { accounts := [{ name := "a", authFile := none }],
                             force := false, waiters := [1] },
          pending := some { accounts := [{ name := "b", authFile := none },
                                         { name := "c", authFile := none }],
                            force := false, pruneMissing := false } }
        [some { name := some "b", authFile := some "new" }]
        true false (some 2)).2.1 = CallResult.joined ∧
    (enqueueRefresh
        { cs := { cache := [], tcount := 0, saves := 0, notifies := 0, warns := 0 },
          inFlight := some { accounts := [{ name := "a", authFile := none }],
                             force := false, waiters := [1] },
          pending := some { accounts := [{ name := "b", authFile := none },
                                         { name := "c", authFile := none }],
                            force := false, pruneMissing := false } }
        [some { name := some "b", authFile := some "new" }]
        true false (some 2)).1.inFlight =
      some { accounts := [{ name := "a", authFile := none }],
             force := false, waiters := [1, 2] } ∧
    (∃ p', (enqueueRefresh
        { cs := { cache := [], tcount := 0, saves := 0, notifies := 0, warns := 0 },
          inFlight := some { accounts := [{ name := "a", authFile := none }],
                             force := false, waiters := [1] },
          pending := some { accounts := [{ name := "b", authFile := none },
                                         { name := "c", authFile := none }],
                            force := false, pruneMissing := false } }
        [some { name := some "b", authFile := some "new" }]
        true false (some 2)).1.pending = some p' ∧
      p'.force = true ∧
      accFind p'.accounts "b" = some { name := "b", authFile := some "new" } ∧
      accFind p'.accounts "c" = some { name := "c", authFile := none }) := by
  have T := c1_coalesce_into_single_pending
    { cs := { cache := [], tcount := 0, saves := 0, notifies := 0, warns := 0 },
      inFlight := some { accounts := [{ name := "a", authFile := none }],
                         force := false, waiters := [1] },
      pending := some { accounts := [{ name := "b", authFile := none },
                                     { name := "c", authFile := none }],
                        force := false, pruneMissing := false } }
    { accounts := [{ name := "a", authFile := none }], force := false, waiters := [1] }
    [some { name := some "b", authFile := some "new" }]
    true false 2 rfl (by decide)
  obtain ⟨h1, _, h3, ⟨p', hp', hforce, _, hfind⟩, _⟩ := T
  exact ⟨h1, h3, ⟨p', hp', hforce, hfind "b", hfind "c"⟩⟩

theorem resolve_not_in_fetchSeq (cid : Nat) (d : Int) (l : List String) :
    Ev.resolveCall cid ∉ fetchSeq d l := by
  induction l with
  | nil => simp [fetchSeq]
  | cons n t ih =>
    rw [fetchSeq_cons]
    intro hmem
    rcases List.mem_cons.mp hmem with h | h
    · exact Ev.noConfusion h
    · cases t with
      | nil => simp [fetchSeqCont] at h
      | cons x xs =>
        rw [show fetchSeqCont d (x :: xs) = Ev.delayWait d :: fetchSeq d (x :: xs)
          from rfl] at h
        rcases List.mem_cons.mp h with h2 | h2
        · exact Ev.noConfusion h2
        · exact ih h2

theorem resolve_not_in_refreshImpl (env : RefreshEnv) (cfg : UsageConfig)
    (accounts : List Account) (force : Bool) (st : CacheState) (cid : Nat) :
    Ev.resolveCall cid ∉ (refreshImpl env cfg accounts force st).2 := by
  obtain ⟨ns, h1, _, _⟩ := refreshImplGo_shape env cfg force accounts true st
  simp only [if_true] at h1
  rw [show (refreshImpl env cfg accounts force st).2 =
    (refreshImplGo env cfg force accounts true st).2 from rfl, h1]
  exact resolve_not_in_fetchSeq cid _ ns

theorem enqueue_no_waiter_trace (m : Machine) (accounts : List (Option RawAccount))
    (force prune : Bool) :
    (enqueueRefresh m accounts force prune none).2.2 = [] := by
  simp only [enqueueRefresh]
  split
  · rfl
  · split
    · rfl
    · rfl

/-- C2, counterexample: caller 2 calls `refreshAccounts([b])` while the
batch `[a]` is fetching; its profiles are merged into the pending batch,
yet its promise (the in-flight batch's promise) resolves when batch
`[a]` completes: in the trace `resolveCall 2` fires with no fetch of
"b" anywhere, "b" has no cache entry, and the merged batch containing
"b" is still in flight — so the promise does NOT wait for the caller's
own profiles to be attempted. -/
theorem c2_resolves_before_merged_batch_counterexample :
    (mrun { fetchRes := fun _ => .ok none, times := fun _ => 0 } defaultConfig
        { cs := { cache := [], tcount := 0, saves := 0, notifies := 0, warns := 0 },
          inFlight := none, pending := none }
        [MInput.call 1 [some { name := some "a", authFile := none }] true false,
         MInput.call 2 [some { name := some "b", authFile := none }] true false,
         MInput.runBatch]).2 =
      [Ev.fetch "a", Ev.resolveCall 1, Ev.resolveCall 2] ∧
    (mrun { fetchRes := fun _ => .ok none, times := fun _ => 0 } defaultConfig
        { cs := { cache := [], tcount := 0, saves := 0, notifies := 0, warns := 0 },
          inFlight := none, pending := none }
        [MInput.call 1 [some { name := some "a", authFile := none }] true false,
         MInput.call 2 [some { name := some "b", authFile := none }] true false,
         MInput.runBatch]).1.inFlight =
      some { accounts := [{ name := "b", authFile := none }],
             force := true, waiters := [] } ∧
    lookupEntry (mrun { fetchRes := fun _ => .ok none, times := fun _ => 0 }
        defaultConfig
        { cs := { cache := [], tcount := 0, saves := 0, notifies := 0, warns := 0 },
          inFlight := none, pending := none }
        [MInput.call 1 [some { name := some "a", authFile := none }] true false,
         MInput.call 2 [some { name := some "b", authFile := none }] true false,
         MInput.runBatch]).1.cs.cache "b" = none ∧
    Ev.fetch "b" ∉ (mrun { fetchRes := fun _ => .ok none, times := fun _ => 0 }
        defaultConfig
        { cs := { cache := [], tcount := 0, saves := 0, notifies := 0, warns := 0 },
          inFlight := none, pending := none }
        [MInput.call 1 [some { name := some "a", authFile := none }] true false,
         MInput.call 2 [some { name := some "b", authFile := none }] true false,
         MInput.runBatch]).2 := by
  refine ⟨rfl, rfl, rfl, ?_⟩
  decide

/-- C2, amended: a `refreshAccounts` call made while a batch is
fetching receives the CURRENTLY RUNNING batch's promise (the caller is
appended to its waiters); when that batch completes, all of its waiters
resolve together — after the batch's own events, these are the only
resolutions in the step — and the dequeued pending batch (which holds
the caller's merged profiles) starts with no waiters at all, so the
caller's promise resolves without waiting for its own profiles to be
attempted. -/
theorem c2_joined_callers_resolve_with_current_batch (m : Machine) (fl : Flight)
    (accounts : List (Option RawAccount)) (force prune : Bool) (cid : Nat)
    (env : RefreshEnv) (cfg : UsageConfig)
    (hfl : m.inFlight = some fl)
    (hne : normalizeAccountsList accounts ≠ []) :
    (enqueueRefresh m accounts force prune (some cid)).1.inFlight =
      some { accounts := fl.accounts, force := fl.force,
             waiters := fl.waiters ++ [cid] } ∧
    (∃ tr, (runFlight env cfg m).2 = tr ++ fl.waiters.map Ev.resolveCall ∧
      ∀ cid', Ev.resolveCall cid' ∉ tr) ∧
    (∀ fl', (runFlight env cfg m).1.inFlight = some fl' → fl'.waiters = []) := by
  have hE : (normalizeAccountsList accounts).isEmpty = false := by
    rcases hh : normalizeAccountsList accounts with _ | ⟨x, xs⟩
    · exact absurd hh hne
    · rfl
  refine ⟨?_, ?_, ?_⟩
  · rcases hp : m.pending with _ | p <;>
      simp only [enqueueRefresh, hE, Bool.false_eq_true, if_false, hfl, hp]
  · simp only [runFlight, hfl]
    rcases hp : m.pending with _ | p
    · simp only [hp]
      refine ⟨(refreshImpl env cfg fl.accounts fl.force m.cs).2 ++ [], rfl, ?_⟩
      intro cid' hmem
      rcases List.mem_append.mp hmem with h | h
      · exact resolve_not_in_refreshImpl env cfg fl.accounts fl.force m.cs cid' h
      · simp at h
    · simp only [hp]
      refine ⟨(refreshImpl env cfg fl.accounts fl.force m.cs).2 ++
        (enqueueRefresh
          { cs := (refreshImpl env cfg fl.accounts fl.force m.cs).1,
            inFlight := none, pending := none }
          (p.accounts.map (fun (a : Account) =>
            some ({ name := some a.name, authFile := a.authFile } : RawAccount)))
          p.force p.pruneMissing none).2.2, rfl, ?_⟩
      intro cid' hmem
      rcases List.mem_append.mp hmem with h | h
      · exact resolve_not_in_refreshImpl env cfg fl.accounts fl.force m.cs cid' h
      · rw [enqueue_no_waiter_trace] at h
        simp at h
  · simp only [runFlight, hfl]
    rcases hp : m.pending with _ | p
    · simp only [hp]
      intro fl' h'
      exact Option.noConfusion h'
    · simp only [hp, enqueueRefresh]
      split
      · intro fl' h'
        exact Option.noConfusion h'
      · intro fl' h'
        cases h'
        rfl

/-- C2 witness: `c2_joined_callers_resolve_with_current_batch` at a
concrete machine with a batch in flight and a pending batch. -/
theorem c2_joined_callers_resolve_with_current_batch_witness :
    (enqueueRefresh
        { cs := { cache := [], tcount := 0, saves := 0, notifies := 0, warns := 0 },
          inFlight := some { accounts := [{ name := "a", authFile := none }],
                             force := false, waiters := [1] },
          pending := none }
        [some { name := some "b", authFile := none }]
        true false (some 2)).1.inFlight =
      some { accounts := [{ name := "a", authFile := none }],
             force := false, waiters := [1, 2] } ∧
    (∃ tr, (runFlight { fetchRes := fun _ => .ok none, times := fun _ => 0 }
        defaultConfig
        { cs := { cache := [], tcount := 0, saves := 0, notifies := 0, warns := 0 },
          inFlight := some { accounts := [{ name := "a", authFile := none }],
                             force := false, waiters := [1] },
          pending := none }).2 =
      tr ++ [1].map Ev.resolveCall ∧ ∀ cid', Ev.resolveCall cid' ∉ tr) := by
  have T := c2_joined_callers_resolve_with_current_batch
    { cs := { cache := [], tcount := 0, saves := 0, notifies := 0, warns := 0 },
      inFlight := some { accounts := [{ name := "a", authFile := none }],
                         force := false, waiters := [1] },
      pending := none }
    { accounts := [{ name := "a", authFile := none }], force := false, waiters := [1] }
    [some { name := some "b", authFile := none }] true false 2
    { fetchRes := fun _ => .ok none, times := fun _ => 0 } defaultConfig
    rfl (by decide)
  exact ⟨T.1, T.2.1⟩

end CodexUsage
